import Mathlib

/-!
Verification of the typed indexing layer in `src/entity-db.ts` (class `EntityDb`)
of the deno-kv-entity repository, together with the pure key-composition helpers
it relies on (`src/fn.ts`).

The embedding is shallow:
  * `Deno.KvKeyPart` values (and the JavaScript `undefined` that the code can
    stage into a key when an instance lacks a property) become `JsValue`;
  * a `Deno.KvKey` is a `List JsValue`;
  * an `EntityInstance` is a JavaScript object: a finite list of named fields,
    where reading an absent property yields `undefined`;
  * the key-value store is an association list from keys to stored instances;
    an atomic commit applies its staged mutations all-or-nothing, and the
    boolean `applies` models whether the store reports the commit as applied
    (the class never inspects that report: `await atomic.commit()` discards it);
  * a JavaScript `throw` becomes the error channel of `Except JsError`.
    The only failure `EntityDb` itself can produce during key composition is
    the `TypeError` raised by reading `.uniqueProperties` /
    `.indexedPropertyChains` of `undefined` when the `entityDefinitionId` is
    not present in `config.entityDefinitions`.

`delete` and `deleteEntityInstance` are exercised by the repository's tests but
their implementation is not present under `src/`; they are modelled from the
spec's description, and are marked as such below.
-/

deriving instance DecidableEq for Except

namespace KvEntity

/-- A JavaScript value usable in this layer: the `Deno.KvKeyPart` primitives
(string, number, bigint, boolean; number and bigint are both embedded as `Int`)
plus `undefined`, which property reads of absent fields produce and which the
code can stage into a key array. `Uint8Array` parts are not needed by any
declaration in the repository and are omitted. -/
inductive JsValue where
  | str (s : String)
  | num (n : Int)
  | bool (b : Bool)
  | undefined
deriving DecidableEq

/-- Embeds `isKvKeyPart` from `src/fn.ts`: true exactly for string / number /
bigint / boolean (and `Uint8Array`) values, false for `undefined`. -/
def isKvKeyPart : JsValue → Bool
  | .undefined => false
  | _ => true

/-- A `Deno.KvKey`: an array of key parts. The layer itself never validates the
parts, so a staged key may contain `undefined`. -/
abbrev KvKey := List JsValue

/-- An `EntityInstance`: a JavaScript object with primitive-valued fields. -/
structure Instance where
  fields : List (String × JsValue)
deriving DecidableEq

/-- Property read `instance[p]`: the value of the first field named `p`, or
`undefined` when the object has no such field. -/
def Instance.get (i : Instance) (p : String) : JsValue :=
  match i.fields.find? (fun e => e.1 == p) with
  | some e => e.2
  | none => .undefined

/-- An `EntityDefinition` from `src/entity-db.ts` (the `_exampleEntityInstance`
field carries no runtime data and is dropped). -/
structure EntityDefinition where
  id : String
  uniqueProperties : List String
  indexedPropertyChains : List (List String)
deriving DecidableEq

/-- The `DbConfig`: the optional global key prefix (`config.prefix` in the
source, renamed `keyPrefix` here; `config.prefix ?? []` makes the absent case
the empty list) and the entity-definition registry, a string-indexed object
embedded as an association list. `dbFilePath` only selects the physical store
and is dropped. -/
structure DbConfig where
  keyPrefix : List JsValue
  entityDefinitions : List (String × EntityDefinition)
deriving DecidableEq

/-- Registry lookup `config.entityDefinitions[entityDefinitionId]`: `none`
plays the role of JavaScript `undefined` when the id is absent. -/
def DbConfig.lookupDef (cfg : DbConfig) (id : String) : Option EntityDefinition :=
  (cfg.entityDefinitions.find? (fun e => e.1 == id)).map (fun e => e.2)

/-- The JavaScript exceptions the embedded code can raise: `typeError` is the
`TypeError` thrown by reading a property of `undefined` (what happens in
`getUniqueKeys` / `getNonUniqueKeys` when the typeId is not in the registry);
`errorMsg` embeds `throw new Error(msg)`. -/
inductive JsError where
  | typeError
  | errorMsg (msg : String)
deriving DecidableEq

/-- The `propertyLookupPairs` argument of `getNonUniqueKey`: either a bare
property name (a single `Deno.KvKeyPart`, recognized in the source by
`isKvKeyPart`) or an array of `[property, value]` pairs. -/
inductive PropertyLookup where
  | bare (propertyName : String)
  | pairs (ps : List (String × JsValue))
deriving DecidableEq

/-- The contribution of `propertyLookupPairs` to the composed key:
`isKvKeyPart(propertyLookupPairs) ? [propertyLookupPairs] :
propertyLookupPairs.flat()` from the source. -/
def PropertyLookup.flat : PropertyLookup → List JsValue
  | .bare propertyName => [JsValue.str propertyName]
  | .pairs ps => ps.flatMap (fun e => [JsValue.str e.1, e.2])

/-- `getUniqueKey` from `src/entity-db.ts`:
`[...(this.config.prefix ?? []), entityDefinitionId, uniquePropertyName,
uniquePropertyValue]`. -/
def getUniqueKey (cfg : DbConfig) (entityDefinitionId : String)
    (uniquePropertyName : String) (uniquePropertyValue : JsValue) : KvKey :=
  cfg.keyPrefix ++
    [JsValue.str entityDefinitionId, JsValue.str uniquePropertyName, uniquePropertyValue]

/-- `getUniqueKeys` from `src/entity-db.ts`: looks the definition up in the
registry (reading `.uniqueProperties` of `undefined` throws a `TypeError` when
the id is absent), then maps every unique property through `getUniqueKey` with
the property value read from the instance. -/
def getUniqueKeys (cfg : DbConfig) (entityDefinitionId : String)
    (entityInstance : Instance) : Except JsError (List KvKey) :=
  match cfg.lookupDef entityDefinitionId with
  | none => .error .typeError
  | some entity =>
      .ok (entity.uniqueProperties.map (fun uniqueProperty =>
        getUniqueKey cfg entityDefinitionId uniqueProperty
          (entityInstance.get uniqueProperty)))

/-- `entityInstance[entityDefinition.uniqueProperties[0]]` from the source:
indexing an empty array yields `undefined`, and reading a property named by
`undefined` from the instance yields `undefined` again. -/
def primaryUniqueValue (entity : EntityDefinition) (entityInstance : Instance) : JsValue :=
  match entity.uniqueProperties with
  | [] => .undefined
  | p :: _ => entityInstance.get p

/-- `getNonUniqueKey` from `src/entity-db.ts`: each of the three optional
arguments contributes its parts only when it is not `undefined`. -/
def getNonUniqueKey (cfg : DbConfig) (entityDefinitionId : Option String)
    (propertyLookupPairs : Option PropertyLookup)
    (entityInstanceUniquePropertyValue : JsValue) : KvKey :=
  cfg.keyPrefix ++
    (match entityDefinitionId with
      | none => []
      | some i => [JsValue.str i]) ++
    (match propertyLookupPairs with
      | none => []
      | some plp => plp.flat) ++
    (if entityInstanceUniquePropertyValue = .undefined
      then []
      else [entityInstanceUniquePropertyValue])

/-- `getNonUniqueKeys` from `src/entity-db.ts`: for every indexed property
chain, pair each chain property with its value read from the instance and
compose the key with the primary unique value as trailing part. -/
def getNonUniqueKeys (cfg : DbConfig) (entityDefinitionId : String)
    (entityInstance : Instance) : Except JsError (List KvKey) :=
  match cfg.lookupDef entityDefinitionId with
  | none => .error .typeError
  | some entityDefinition =>
      .ok (entityDefinition.indexedPropertyChains.map (fun indexedPropertyChain =>
        getNonUniqueKey cfg (some entityDefinitionId)
          (some (.pairs (indexedPropertyChain.map (fun p => (p, entityInstance.get p)))))
          (primaryUniqueValue entityDefinition entityInstance)))

/-- `getAllKeys` from `src/entity-db.ts`. -/
def getAllKeys (cfg : DbConfig) (entityDefinitionId : Option String)
    (entityInstance : Option Instance) : Except JsError (List KvKey) :=
  match entityDefinitionId with
  | none => .ok [getNonUniqueKey cfg none none .undefined]
  | some id =>
      match entityInstance with
      | none => .ok [getNonUniqueKey cfg (some id) none .undefined]
      | some inst => do
          let us ← getUniqueKeys cfg id inst
          let ns ← getNonUniqueKeys cfg id inst
          .ok (us ++ ns)

/-- The key-value store: an association list from keys to stored instances.
The well-formed stores produced by the operations keep at most one entry per
key. -/
abbrev Store := List (KvKey × Instance)

/-- `connection.get(key).value ?? undefined`. -/
def Store.get (st : Store) (k : KvKey) : Option Instance :=
  (st.find? (fun e => e.1 == k)).map (fun e => e.2)

/-- One staged `atomic.set(key, value)` as applied by a successful commit. -/
def Store.set (st : Store) (k : KvKey) (v : Instance) : Store :=
  st.filter (fun e => !(e.1 == k)) ++ [(k, v)]

/-- One staged `atomic.delete(key)` as applied by a successful commit. -/
def Store.del (st : Store) (k : KvKey) : Store :=
  st.filter (fun e => !(e.1 == k))

/-- Whether key `k` matches the `Deno.Kv` list selector `{ prefix := p }`:
it must start with `p` and be strictly longer than it. -/
def underScan (p k : KvKey) : Bool :=
  p.isPrefixOf k && decide (p.length < k.length)

/-- The values of all entries matched by a prefix scan, in store order. -/
def Store.listValues (st : Store) (p : KvKey) : List Instance :=
  (st.filter (fun e => underScan p e.1)).map (fun e => e.2)

/-- The keys of all entries matched by a prefix scan, in store order. -/
def Store.listKeys (st : Store) (p : KvKey) : List KvKey :=
  (st.filter (fun e => underScan p e.1)).map (fun e => e.1)

/-- The result of `atomic.commit()`: whether the store reports the commit as
applied, and the store contents afterwards. -/
structure CommitResult where
  ok : Bool
  store : Store

/-- Commit of an atomic transaction whose staged mutations are
`set key -> v` for every key in `keys`: all-or-nothing. -/
def commitSets (applies : Bool) (keys : List KvKey) (v : Instance)
    (st : Store) : CommitResult :=
  { ok := applies
    store := if applies then keys.foldl (fun s k => s.set k v) st else st }

/-- Commit of an atomic transaction whose staged mutations are
`delete key` for every key in `keys`: all-or-nothing. -/
def commitDeletes (applies : Bool) (keys : List KvKey) (st : Store) : CommitResult :=
  { ok := applies
    store := if applies then keys.foldl (fun s k => s.del k) st else st }

/-- `save` from `src/entity-db.ts`: computes all keys, stages one `set` per
key, commits once, and discards the commit result (the source runs
`await atomic.commit();` without inspecting it, so a commit the store reports
as not applied still resolves the returned promise normally). -/
def save (cfg : DbConfig) (entityDefinitionId : String) (entityInstance : Instance)
    (applies : Bool) (st : Store) : Except JsError Store :=
  match getAllKeys cfg (some entityDefinitionId) (some entityInstance) with
  | .error e => .error e
  | .ok keys => .ok (commitSets applies keys entityInstance st).store

/-- `find` from `src/entity-db.ts`: one point read at the composed unique key. -/
def find (cfg : DbConfig) (entityId : String) (uniquePropertyName : String)
    (uniquePropertyValue : JsValue) (st : Store) : Option Instance :=
  st.get (getUniqueKey cfg entityId uniquePropertyName uniquePropertyValue)

/-- `findAll` from `src/entity-db.ts`: composes the scan key from the optional
typeId and optional selector (no trailing value), lists all entries under that
key and returns their values. It can never throw. -/
def findAll (cfg : DbConfig) (entityDefinitionId : Option String)
    (propertyLookupKey : Option PropertyLookup) (st : Store) :
    Except JsError (List Instance) :=
  .ok (st.listValues (getNonUniqueKey cfg entityDefinitionId propertyLookupKey .undefined))

/-- `_clearEntity` from `src/entity-db.ts`: computes the scan keys via
`getAllKeys` (one per call: the bare type key or the bare global key), lists
every entry under each, stages one `delete` per listed key and commits once
(the commit result is again discarded). -/
def _clearEntity (cfg : DbConfig) (entityId : Option String) (applies : Bool)
    (st : Store) : Except JsError Store :=
  match getAllKeys cfg entityId none with
  | .error e => .error e
  | .ok scanKeys =>
      let staged := scanKeys.foldl (fun acc p => acc ++ st.listKeys p) []
      .ok (commitDeletes applies staged st).store

/-- `clearEntity` from `src/entity-db.ts`: the `typeof entityDefinitionId !==
"string"` guard always passes here because the embedded argument is a
`String`, so the call reduces to `_clearEntity`. -/
def clearEntity (cfg : DbConfig) (entityDefinitionId : String) (applies : Bool)
    (st : Store) : Except JsError Store :=
  _clearEntity cfg (some entityDefinitionId) applies st

/-- `clearAllEntities` from `src/entity-db.ts`. -/
def clearAllEntities (cfg : DbConfig) (applies : Bool) (st : Store) :
    Except JsError Store :=
  _clearEntity cfg none applies st

/-- Modelled from the spec: `deleteEntityInstance(typeId, instance)` is called
by the repository's tests but its implementation is not present under `src/`.
The spec describes it as "symmetric to `save` but stages `delete key` for each
computed key, atomically". -/
def deleteEntityInstance (cfg : DbConfig) (entityDefinitionId : String)
    (entityInstance : Instance) (applies : Bool) (st : Store) :
    Except JsError Store :=
  match getAllKeys cfg (some entityDefinitionId) (some entityInstance) with
  | .error e => .error e
  | .ok keys => .ok (commitDeletes applies keys st).store

/-- Modelled from the spec: `delete(typeId, uniqueFieldName, uniqueFieldValue)`
is called by the repository's tests but its implementation is not present under
`src/`. The spec describes it as "performs a unique-key point lookup first; if
found, delegates to `deleteEntityInstance` with the retrieved instance. If not
found, this is a no-op (not an error)". -/
def delete (cfg : DbConfig) (entityDefinitionId : String)
    (uniquePropertyName : String) (uniquePropertyValue : JsValue)
    (applies : Bool) (st : Store) : Except JsError Store :=
  match find cfg entityDefinitionId uniquePropertyName uniquePropertyValue st with
  | none => .ok st
  | some inst => deleteEntityInstance cfg entityDefinitionId inst applies st

/-- The unique keys of an instance, written out for a known definition (what
`getUniqueKeys` returns when the registry lookup succeeds). -/
def uniqueKeysOf (cfg : DbConfig) (entity : EntityDefinition) (id : String)
    (inst : Instance) : List KvKey :=
  entity.uniqueProperties.map (fun uniqueProperty =>
    getUniqueKey cfg id uniqueProperty (inst.get uniqueProperty))

/-- The indexed keys of an instance, written out for a known definition (what
`getNonUniqueKeys` returns when the registry lookup succeeds). -/
def nonUniqueKeysOf (cfg : DbConfig) (entity : EntityDefinition) (id : String)
    (inst : Instance) : List KvKey :=
  entity.indexedPropertyChains.map (fun indexedPropertyChain =>
    getNonUniqueKey cfg (some id)
      (some (.pairs (indexedPropertyChain.map (fun p => (p, inst.get p)))))
      (primaryUniqueValue entity inst))

/-- All physical keys of an instance for a known definition. -/
def allKeysOf (cfg : DbConfig) (entity : EntityDefinition) (id : String)
    (inst : Instance) : List KvKey :=
  uniqueKeysOf cfg entity id inst ++ nonUniqueKeysOf cfg entity id inst

/-- A store is well formed when it has at most one entry per key; the empty
store is well formed and the operations preserve this. -/
def Store.WF (st : Store) : Prop :=
  (st.map Prod.fst).Nodup

/-- The keys at which the store holds the value `v`. -/
def Store.keysHolding (st : Store) (v : Instance) : List KvKey :=
  (st.filter (fun e => e.2 == v)).map (fun e => e.1)

/-- The person entity declaration used by the repository's test suite. -/
def personDef : EntityDefinition :=
  { id := "person"
    uniqueProperties := ["ssn", "email"]
    indexedPropertyChains := [["lastname", "firstname"], ["country", "zipcode"]] }

/-- The invoice entity declaration used by the repository's test suite. -/
def invoiceDef : EntityDefinition :=
  { id := "invoice"
    uniqueProperties := ["invoiceNumber"]
    indexedPropertyChains := [["customerEmail"]] }

/-- A two-type configuration mirroring the test suite's `DbConfig`. -/
def cfgP : DbConfig :=
  { keyPrefix := [JsValue.str "testPf"]
    entityDefinitions := [("person", personDef), ("invoice", invoiceDef)] }

/-- The ALICE fixture from the test suite. -/
def ALICE : Instance :=
  ⟨[("ssn", .str "123-45-6789"), ("email", .str "alice@example.com"),
    ("firstname", .str "Alice"), ("lastname", .str "Smith"),
    ("country", .str "US"), ("zipcode", .str "12345")]⟩

/-- ALICE with a changed indexed property (`zipcode`) and unchanged unique
identity, for the stale-indexed-key scenario. -/
def ALICE2 : Instance :=
  ⟨[("ssn", .str "123-45-6789"), ("email", .str "alice@example.com"),
    ("firstname", .str "Alice"), ("lastname", .str "Smith"),
    ("country", .str "US"), ("zipcode", .str "99999")]⟩

/-- An invoice fixture from the test suite. -/
def INV : Instance :=
  ⟨[("invoiceNumber", .str "123"), ("customerEmail", .str "alice@example.com")]⟩

/-- A person instance that lacks the declared unique property `ssn` and the
declared chain property `zipcode`. -/
def ALICEPARTIAL : Instance :=
  ⟨[("email", .str "alice@example.com"), ("firstname", .str "Alice"),
    ("lastname", .str "Smith"), ("country", .str "US")]⟩

/-- The store after saving ALICE into an empty store. -/
def storeA : Store := (save cfgP "person" ALICE true []).toOption.getD []

/-- The store after saving ALICE and then the invoice. -/
def storeAI : Store := (save cfgP "invoice" INV true storeA).toOption.getD []

/-! ### Store lemmas -/

theorem Store.get_nil (k : KvKey) : Store.get [] k = none := rfl

theorem Store.get_cons (e : KvKey × Instance) (st : Store) (k : KvKey) :
    Store.get (e :: st) k = if e.1 = k then some e.2 else st.get k := by
  by_cases h : e.1 = k <;> simp [Store.get, List.find?_cons, h]

theorem Store.get_set (st : Store) (k : KvKey) (v : Instance) (k0 : KvKey) :
    (st.set k v).get k0 = if k0 = k then some v else st.get k0 := by
  induction st with
  | nil =>
      by_cases h : k0 = k
      · simp [Store.set, Store.get_cons, h]
      · simp [Store.set, Store.get_cons, Store.get_nil, h, Ne.symm h]
  | cons e t ih =>
      by_cases hek : e.1 = k <;> by_cases he0 : e.1 = k0 <;>
        simp_all [Store.set, List.filter_cons, Store.get_cons]

theorem Store.get_del (st : Store) (k : KvKey) (k0 : KvKey) :
    (st.del k).get k0 = if k0 = k then none else st.get k0 := by
  induction st with
  | nil => by_cases h : k0 = k <;> simp [Store.del, Store.get_nil, h]
  | cons e t ih =>
      by_cases hek : e.1 = k <;> by_cases he0 : e.1 = k0 <;>
        simp_all [Store.del, List.filter_cons, Store.get_cons]

theorem Store.get_foldl_set (v : Instance) (keys : List KvKey) (st : Store) (k : KvKey) :
    (keys.foldl (fun s kk => s.set kk v) st).get k =
      if k ∈ keys then some v else st.get k := by
  induction keys generalizing st with
  | nil => simp
  | cons k1 rest ih =>
      simp only [List.foldl_cons, ih, Store.get_set, List.mem_cons]
      by_cases hr : k ∈ rest
      · simp [hr]
      · by_cases h1 : k = k1 <;> simp [hr, h1]

theorem Store.get_foldl_del (keys : List KvKey) (st : Store) (k : KvKey) :
    (keys.foldl Store.del st).get k = if k ∈ keys then none else st.get k := by
  induction keys generalizing st with
  | nil => simp
  | cons k1 rest ih =>
      simp only [List.foldl_cons, ih, Store.get_del, List.mem_cons]
      by_cases hr : k ∈ rest
      · simp [hr]
      · by_cases h1 : k = k1 <;> simp [hr, h1]

theorem Store.mem_del (e : KvKey × Instance) (st : Store) (k : KvKey) :
    e ∈ st.del k ↔ e ∈ st ∧ e.1 ≠ k := by
  simp [Store.del, List.mem_filter]

theorem Store.mem_foldl_del (e : KvKey × Instance) (keys : List KvKey) (st : Store) :
    e ∈ keys.foldl Store.del st ↔ e ∈ st ∧ e.1 ∉ keys := by
  induction keys generalizing st with
  | nil => simp
  | cons k1 rest ih =>
      simp only [List.foldl_cons, ih, Store.mem_del, List.mem_cons]
      tauto

theorem Store.mem_of_get_eq_some (st : Store) (k : KvKey) (v : Instance)
    (h : st.get k = some v) : (k, v) ∈ st := by
  unfold Store.get at h
  cases hfind : st.find? (fun e => e.1 == k) with
  | none => simp [hfind] at h
  | some e =>
      have hmem := List.mem_of_find?_eq_some hfind
      have hkey := List.find?_some hfind
      simp only [beq_iff_eq] at hkey
      simp only [hfind, Option.map_some] at h
      obtain rfl : e.2 = v := by injection h
      rw [← hkey]
      exact hmem

theorem Store.get_eq_some_iff (st : Store) (hwf : st.WF) (k : KvKey) (v : Instance) :
    st.get k = some v ↔ (k, v) ∈ st := by
  refine ⟨Store.mem_of_get_eq_some st k v, ?_⟩
  induction st with
  | nil => simp
  | cons e t ih =>
      intro hmem
      rcases List.mem_cons.mp hmem with he | ht
      · subst he
        simp [Store.get_cons]
      · have hwt : Store.WF t := (List.nodup_cons.mp hwf).2
        have hne : e.1 ≠ k := by
          intro hek
          have : k ∈ t.map Prod.fst := List.mem_map.mpr ⟨(k, v), ht, rfl⟩
          exact (List.nodup_cons.mp hwf).1 (hek ▸ this)
        rw [Store.get_cons, if_neg hne]
        exact ih hwt ht

theorem Store.WF_set (st : Store) (k : KvKey) (v : Instance) (hwf : st.WF) :
    (st.set k v).WF := by
  unfold Store.WF Store.set
  rw [List.map_append, List.nodup_append]
  refine ⟨((List.filter_sublist st).map Prod.fst).nodup hwf, by simp, ?_⟩
  intro a ha
  simp only [List.mem_map] at ha
  obtain ⟨e, he, rfl⟩ := ha
  have := (List.mem_filter.mp he).2
  simp only [Bool.not_eq_eq_eq_not, Bool.not_true, beq_eq_false_iff_ne, ne_eq] at this
  simpa using this

theorem Store.WF_foldl_set (v : Instance) (keys : List KvKey) (st : Store)
    (hwf : st.WF) : (keys.foldl (fun s kk => s.set kk v) st).WF := by
  induction keys generalizing st with
  | nil => exact hwf
  | cons k1 rest ih => exact ih _ (Store.WF_set st k1 v hwf)

theorem Store.mem_keysHolding (st : Store) (v : Instance) (k : KvKey) :
    k ∈ st.keysHolding v ↔ (k, v) ∈ st := by
  unfold Store.keysHolding
  simp only [List.mem_map, List.mem_filter, beq_iff_eq]
  constructor
  · rintro ⟨e, ⟨hmem, hv⟩, hk⟩
    have : e = (k, v) := by
      cases e
      simp only at hv hk
      simp [hv, hk]
    exact this ▸ hmem
  · intro hmem
    exact ⟨(k, v), ⟨hmem, rfl⟩, rfl⟩

theorem Store.keysHolding_nodup (st : Store) (v : Instance) (hwf : st.WF) :
    (st.keysHolding v).Nodup :=
  ((List.filter_sublist st).map Prod.fst).nodup hwf

/-! ### Key-composition lemmas -/

theorem getUniqueKeys_of_lookup (cfg : DbConfig) (entity : EntityDefinition)
    (id : String) (inst : Instance) (h : cfg.lookupDef id = some entity) :
    getUniqueKeys cfg id inst = .ok (uniqueKeysOf cfg entity id inst) := by
  simp [getUniqueKeys, h, uniqueKeysOf]

theorem getNonUniqueKeys_of_lookup (cfg : DbConfig) (entity : EntityDefinition)
    (id : String) (inst : Instance) (h : cfg.lookupDef id = some entity) :
    getNonUniqueKeys cfg id inst = .ok (nonUniqueKeysOf cfg entity id inst) := by
  simp [getNonUniqueKeys, h, nonUniqueKeysOf]

theorem getAllKeys_of_lookup (cfg : DbConfig) (entity : EntityDefinition)
    (id : String) (inst : Instance) (h : cfg.lookupDef id = some entity) :
    getAllKeys cfg (some id) (some inst) = .ok (allKeysOf cfg entity id inst) := by
  simp [getAllKeys, getUniqueKeys_of_lookup cfg entity id inst h,
    getNonUniqueKeys_of_lookup cfg entity id inst h, allKeysOf, Bind.bind, Except.bind]

theorem length_getUniqueKey (cfg : DbConfig) (id n : String) (v : JsValue) :
    (getUniqueKey cfg id n v).length = cfg.keyPrefix.length + 3 := by
  simp [getUniqueKey]

theorem length_flat_pairs (ps : List (String × JsValue)) :
    (PropertyLookup.flat (.pairs ps)).length = 2 * ps.length := by
  induction ps with
  | nil => simp [PropertyLookup.flat]
  | cons a t ih =>
      simp only [PropertyLookup.flat, List.flatMap_cons, List.length_append,
        List.length_cons, List.length_nil] at ih ⊢
      omega

theorem length_getNonUniqueKey_pairs (cfg : DbConfig) (id : String)
    (ps : List (String × JsValue)) (tr : JsValue) (htr : tr ≠ .undefined) :
    (getNonUniqueKey cfg (some id) (some (.pairs ps)) tr).length =
      cfg.keyPrefix.length + 2 * ps.length + 2 := by
  simp only [getNonUniqueKey, if_neg htr, List.length_append, List.length_cons,
    List.length_nil, List.length_singleton, length_flat_pairs]
  omega

theorem flat_pairs_map_inj (inst : Instance) : ∀ (c1 c2 : List String),
    PropertyLookup.flat (.pairs (c1.map (fun p => (p, inst.get p)))) =
      PropertyLookup.flat (.pairs (c2.map (fun p => (p, inst.get p)))) → c1 = c2 := by
  intro c1
  induction c1 with
  | nil =>
      intro c2 h
      cases c2 with
      | nil => rfl
      | cons b t2 => simp [PropertyLookup.flat] at h
  | cons a t ih =>
      intro c2 h
      cases c2 with
      | nil => simp [PropertyLookup.flat] at h
      | cons b t2 =>
          simp only [PropertyLookup.flat, List.map_cons, List.flatMap_cons,
            List.cons_append, List.nil_append, List.cons.injEq,
            JsValue.str.injEq] at h
          obtain ⟨hab, -, hrest⟩ := h
          have := ih t2 (by simpa [PropertyLookup.flat] using hrest)
          simp [hab, this]

theorem getUniqueKey_name_inj (cfg : DbConfig) (id : String)
    (n1 n2 : String) (v1 v2 : JsValue)
    (h : getUniqueKey cfg id n1 v1 = getUniqueKey cfg id n2 v2) : n1 = n2 := by
  unfold getUniqueKey at h
  have h2 := List.append_cancel_left h
  simp only [List.cons.injEq, JsValue.str.injEq] at h2
  exact h2.2.1

theorem uniqueKeysOf_nodup (cfg : DbConfig) (entity : EntityDefinition)
    (id : String) (inst : Instance) (hu : entity.uniqueProperties.Nodup) :
    (uniqueKeysOf cfg entity id inst).Nodup := by
  unfold uniqueKeysOf
  exact hu.map_on (fun x _ y _ h => getUniqueKey_name_inj cfg id x y _ _ h)

theorem nonUniqueKeysOf_nodup (cfg : DbConfig) (entity : EntityDefinition)
    (id : String) (inst : Instance) (hc : entity.indexedPropertyChains.Nodup) :
    (nonUniqueKeysOf cfg entity id inst).Nodup := by
  unfold nonUniqueKeysOf
  refine hc.map_on (fun c1 _ c2 _ heq => ?_)
  unfold getNonUniqueKey at heq
  have h3 := List.append_cancel_left (List.append_cancel_right heq)
  exact flat_pairs_map_inj inst c1 c2 h3

theorem allKeysOf_nodup (cfg : DbConfig) (entity : EntityDefinition)
    (id : String) (inst : Instance) (hu : entity.uniqueProperties.Nodup)
    (hc : entity.indexedPropertyChains.Nodup)
    (hprim : primaryUniqueValue entity inst ≠ .undefined) :
    (allKeysOf cfg entity id inst).Nodup := by
  unfold allKeysOf
  rw [List.nodup_append]
  refine ⟨uniqueKeysOf_nodup cfg entity id inst hu,
    nonUniqueKeysOf_nodup cfg entity id inst hc, ?_⟩
  intro k hku hkn
  obtain ⟨uf, -, hk1⟩ := List.mem_map.mp hku
  obtain ⟨c, -, hk2⟩ := List.mem_map.mp hkn
  have l1 : k.length = cfg.keyPrefix.length + 3 := by
    rw [← hk1, length_getUniqueKey]
  have l2 : k.length = cfg.keyPrefix.length + 2 * c.length + 2 := by
    rw [← hk2, length_getNonUniqueKey_pairs cfg id _ _ hprim, List.length_map]
  omega

theorem allKeysOf_length (cfg : DbConfig) (entity : EntityDefinition)
    (id : String) (inst : Instance) :
    (allKeysOf cfg entity id inst).length =
      entity.uniqueProperties.length + entity.indexedPropertyChains.length := by
  simp [allKeysOf, uniqueKeysOf, nonUniqueKeysOf]

/-! ### Prefix-scan lemmas -/

theorem isPrefixOf_append_same (l p k : KvKey) :
    (l ++ p).isPrefixOf (l ++ k) = p.isPrefixOf k := by
  induction l with
  | nil => simp
  | cons a t ih => simp [List.isPrefixOf, ih]

theorem underScan_append (l p k : KvKey) :
    underScan (l ++ p) (l ++ k) = underScan p k := by
  simp [underScan, isPrefixOf_append_same, List.length_append,
    Nat.add_lt_add_iff_left]

theorem underScan_singleton_cons_ne (x y : JsValue) (rest : KvKey) (h : x ≠ y) :
    underScan [x] (y :: rest) = false := by
  simp [underScan, List.isPrefixOf, h]

theorem scanKey_of_type (cfg : DbConfig) (id : String) :
    getNonUniqueKey cfg (some id) none .undefined = cfg.keyPrefix ++ [JsValue.str id] := by
  simp [getNonUniqueKey]

theorem delete_found (cfg : DbConfig) (id uf : String) (v : JsValue)
    (applies : Bool) (st : Store) (inst : Instance)
    (h : find cfg id uf v st = some inst) :
    delete cfg id uf v applies st = deleteEntityInstance cfg id inst applies st := by
  unfold delete
  rw [h]

theorem Store.mem_listKeys (st : Store) (p k : KvKey) :
    k ∈ st.listKeys p ↔ (∃ v, (k, v) ∈ st) ∧ underScan p k = true := by
  unfold Store.listKeys
  simp only [List.mem_map, List.mem_filter]
  constructor
  · rintro ⟨e, ⟨hm, hu⟩, rfl⟩
    exact ⟨⟨e.2, hm⟩, hu⟩
  · rintro ⟨⟨v, hm⟩, hu⟩
    exact ⟨(k, v), ⟨hm, hu⟩, rfl⟩

/-! ### Claim theorems -/

/-- Claim C2: for every registered type and every instance that has a value for
the primary unique field, the derived physical keys have exactly the specified
shapes: one unique key `[globalPrefix..., typeId, uniqueFieldName,
uniqueFieldValue]` per entry of `uniqueFields`, and one indexed key
`[globalPrefix..., typeId, chainField1, chainValue1, ..., primaryUniqueValue]`
per entry of `indexedFieldChains`, where `primaryUniqueValue` is the instance's
value of the first field in `uniqueFields`. -/
theorem derivedKeyShapes (cfg : DbConfig) (entity : EntityDefinition)
    (id : String) (inst : Instance)
    (hdef : cfg.lookupDef id = some entity)
    (hprim : primaryUniqueValue entity inst ≠ .undefined) :
    getUniqueKeys cfg id inst =
      .ok (entity.uniqueProperties.map (fun uf =>
        cfg.keyPrefix ++ [JsValue.str id, JsValue.str uf, inst.get uf])) ∧
    getNonUniqueKeys cfg id inst =
      .ok (entity.indexedPropertyChains.map (fun chain =>
        cfg.keyPrefix ++ JsValue.str id ::
          ((chain.flatMap (fun f => [JsValue.str f, inst.get f])) ++
            [primaryUniqueValue entity inst]))) := by
  constructor
  · rw [getUniqueKeys_of_lookup cfg entity id inst hdef]
    simp [uniqueKeysOf, getUniqueKey]
  · rw [getNonUniqueKeys_of_lookup cfg entity id inst hdef]
    unfold nonUniqueKeysOf getNonUniqueKey
    simp [hprim, PropertyLookup.flat, List.flatMap_map]

/-- Witness for C2 at the test suite's person declaration and the ALICE
instance. -/
theorem derivedKeyShapes_witness :
    getUniqueKeys cfgP "person" ALICE =
      .ok (personDef.uniqueProperties.map (fun uf =>
        cfgP.keyPrefix ++ [JsValue.str "person", JsValue.str uf, ALICE.get uf])) ∧
    getNonUniqueKeys cfgP "person" ALICE =
      .ok (personDef.indexedPropertyChains.map (fun chain =>
        cfgP.keyPrefix ++ JsValue.str "person" ::
          ((chain.flatMap (fun f => [JsValue.str f, ALICE.get f])) ++
            [primaryUniqueValue personDef ALICE]))) :=
  derivedKeyShapes cfgP personDef "person" ALICE (by decide) (by decide)

/-- Claim C4: round-trip — for every instance of a registered type and every
declared unique field `uf`, `find(T, uf, r[uf])` immediately after a successful
`save(T, r)` returns `r` unchanged. -/
theorem saveFindRoundtrip (cfg : DbConfig) (entity : EntityDefinition)
    (id uf : String) (inst : Instance) (st st' : Store)
    (hdef : cfg.lookupDef id = some entity)
    (huf : uf ∈ entity.uniqueProperties)
    (hsave : save cfg id inst true st = .ok st') :
    find cfg id uf (inst.get uf) st' = some inst := by
  unfold save at hsave
  rw [getAllKeys_of_lookup cfg entity id inst hdef] at hsave
  simp only [commitSets, if_pos] at hsave
  obtain rfl : (allKeysOf cfg entity id inst).foldl
      (fun s k => s.set k inst) st = st' := by
    simpa using hsave
  unfold find
  rw [Store.get_foldl_set]
  have hmem : getUniqueKey cfg id uf (inst.get uf) ∈ allKeysOf cfg entity id inst := by
    unfold allKeysOf uniqueKeysOf
    exact List.mem_append_left _ (List.mem_map.mpr ⟨uf, huf, rfl⟩)
  simp [hmem]

/-- Witness for C4: ALICE saved into the empty store is found again through
her unique `email` property. -/
theorem saveFindRoundtrip_witness :
    find cfgP "person" "email" (ALICE.get "email") storeA = some ALICE :=
  saveFindRoundtrip cfgP personDef "person" "email" ALICE [] storeA
    (by decide) (by decide) (by decide)

/-- Claim C5: `save` resolves the type declaration from the registry before
touching the store, and fails when the given typeId is not present. The
failure is the `TypeError` raised by reading `.uniqueProperties` of the
`undefined` registry entry — the error condition the spec's taxonomy names
`UnknownType` (an operation referenced a typeId not present in the registry). -/
theorem saveUnknownType (cfg : DbConfig) (id : String) (inst : Instance)
    (applies : Bool) (st : Store)
    (habs : cfg.lookupDef id = none) :
    save cfg id inst applies st = .error JsError.typeError := by
  unfold save getAllKeys getUniqueKeys
  simp [habs, Bind.bind, Except.bind]

/-- Witness for C5: saving under the unregistered typeId "ghost" fails. -/
theorem saveUnknownType_witness :
    save cfgP "ghost" ALICE true [] = .error JsError.typeError :=
  saveUnknownType cfgP "ghost" ALICE true [] (by decide)

/-- Counterexample for C6 as stated: when the store reports that the atomic
commit of a save did not apply, `save` does not surface any error — at this
concrete input it resolves with `.ok` and the store unchanged, because the
source discards the result of `atomic.commit()`. -/
theorem saveCommitFailed_counterexample :
    save cfgP "person" ALICE false [] = .ok [] := by decide

/-- Claim C6 (amended): when the store reports that the atomic multi-key
commit of a save did not apply, `save` does not retry the commit — but it also
does not surface a `CommitFailed` error: the commit result is discarded and
`save` completes normally, leaving the store unchanged by the failed commit. -/
theorem saveIgnoresCommitResult (cfg : DbConfig) (entity : EntityDefinition)
    (id : String) (inst : Instance) (st : Store)
    (hdef : cfg.lookupDef id = some entity) :
    save cfg id inst false st = .ok st := by
  unfold save
  rw [getAllKeys_of_lookup cfg entity id inst hdef]
  simp [commitSets]

/-- Witness for C6 (amended): a save of ALICE2 over the existing store whose
commit the store reports as not applied resolves normally with the old store. -/
theorem saveIgnoresCommitResult_witness :
    save cfgP "person" ALICE2 false storeA = .ok storeA :=
  saveIgnoresCommitResult cfgP personDef "person" ALICE2 storeA (by decide)

/-- Counterexample for C7 as stated: `findAll` called with a field-chain
selector but no typeId does not signal an invalid-argument error — at this
concrete input it succeeds with an empty result list. -/
theorem findAllNoTypeId_counterexample :
    findAll cfgP none (some (.pairs [("country", JsValue.str "US")])) []
      = .ok [] := by decide

/-- Claim C7 (amended): a scan request with a field-chain filter but no typeId
is not rejected: the layer builds the scan prefix
`[globalPrefix..., selectorParts...]` without any typeId component and performs
the scan normally, never signalling an error. -/
theorem findAllNoTypeId (cfg : DbConfig) (plp : PropertyLookup) (st : Store) :
    getNonUniqueKey cfg none (some plp) .undefined = cfg.keyPrefix ++ plp.flat ∧
    findAll cfg none (some plp) st =
      .ok (st.listValues (cfg.keyPrefix ++ plp.flat)) := by
  have hk : getNonUniqueKey cfg none (some plp) .undefined = cfg.keyPrefix ++ plp.flat := by
    simp [getNonUniqueKey]
  exact ⟨hk, by simp [findAll, hk]⟩

/-- Claim C8: `clearEntity(typeId)` removes every physical key scanned under
the prefix `[globalPrefix..., typeId]` — all unique and indexed keys of that
type — and leaves every key of every other registered type, together with its
stored value, unchanged. -/
theorem clearEntityScopeIsolation (cfg : DbConfig) (id : String) (st st' : Store)
    (hclear : clearEntity cfg id true st = .ok st') :
    (∀ k, underScan (cfg.keyPrefix ++ [JsValue.str id]) k = true → st'.get k = none) ∧
    (∀ (idd : String) (rest : KvKey), idd ≠ id →
      st'.get (cfg.keyPrefix ++ JsValue.str idd :: rest) =
        st.get (cfg.keyPrefix ++ JsValue.str idd :: rest)) := by
  unfold clearEntity _clearEntity at hclear
  simp only [getAllKeys, scanKey_of_type, List.foldl_cons, List.foldl_nil,
    List.nil_append, commitDeletes, if_pos] at hclear
  obtain rfl : (st.listKeys (cfg.keyPrefix ++ [JsValue.str id])).foldl
      Store.del st = st' := by
    simpa using hclear
  constructor
  · intro k hks
    rw [Store.get_foldl_del]
    by_cases hk : k ∈ st.listKeys (cfg.keyPrefix ++ [JsValue.str id])
    · simp [hk]
    · rw [if_neg hk]
      cases hg : st.get k with
      | none => rfl
      | some v =>
          exact absurd ((Store.mem_listKeys st _ k).mpr
            ⟨⟨v, Store.mem_of_get_eq_some st k v hg⟩, hks⟩) hk
  · intro idd rest hne
    rw [Store.get_foldl_del, if_neg]
    intro hk
    have hscan := ((Store.mem_listKeys st _ _).mp hk).2
    rw [show cfg.keyPrefix ++ JsValue.str idd :: rest =
          cfg.keyPrefix ++ (JsValue.str idd :: rest) from rfl,
      underScan_append] at hscan
    rw [underScan_singleton_cons_ne (JsValue.str id) (JsValue.str idd) rest
      (by simp [Ne.symm hne])] at hscan
    exact Bool.false_ne_true hscan

/-- Witness for C8: clearing "person" from the store holding ALICE and an
invoice removes every person key and preserves the invoice keys and values. -/
theorem clearEntityScopeIsolation_witness :
    (∀ k, underScan (cfgP.keyPrefix ++ [JsValue.str "person"]) k = true →
      ((clearEntity cfgP "person" true storeAI).toOption.getD []).get k = none) ∧
    (∀ (idd : String) (rest : KvKey), idd ≠ "person" →
      ((clearEntity cfgP "person" true storeAI).toOption.getD []).get
          (cfgP.keyPrefix ++ JsValue.str idd :: rest) =
        storeAI.get (cfgP.keyPrefix ++ JsValue.str idd :: rest)) :=
  clearEntityScopeIsolation cfgP "person" storeAI
    ((clearEntity cfgP "person" true storeAI).toOption.getD []) (by decide)

/-- Claim C9: if an indexed field's value changes between two saves for the
same unique identity, the old indexed key is never removed by the second save:
afterwards the record is reachable under both the old and the new indexed-key
locations (the old location still holding the previously saved snapshot), and
a save deletes no pre-existing key at all — it stages only set operations. -/
theorem saveKeepsStaleIndexedKeys (cfg : DbConfig) (entity : EntityDefinition)
    (id : String) (r1 r2 : Instance) (st st1 st2 : Store) (kOld : KvKey)
    (hdef : cfg.lookupDef id = some entity)
    (h1 : save cfg id r1 true st = .ok st1)
    (h2 : save cfg id r2 true st1 = .ok st2)
    (hkOld : kOld ∈ nonUniqueKeysOf cfg entity id r1)
    (hnot : kOld ∉ allKeysOf cfg entity id r2) :
    st2.get kOld = st1.get kOld ∧
    st1.get kOld = some r1 ∧
    (∀ k ∈ allKeysOf cfg entity id r2, st2.get k = some r2) ∧
    (∀ k, (st1.get k).isSome → (st2.get k).isSome) := by
  unfold save at h1 h2
  rw [getAllKeys_of_lookup cfg entity id r1 hdef] at h1
  rw [getAllKeys_of_lookup cfg entity id r2 hdef] at h2
  simp only [commitSets, if_pos] at h1 h2
  obtain rfl : (allKeysOf cfg entity id r1).foldl
      (fun s k => s.set k r1) st = st1 := by simpa using h1
  obtain rfl : (allKeysOf cfg entity id r2).foldl
      (fun s k => s.set k r2) _ = st2 := by simpa using h2
  refine ⟨?_, ?_, ?_, ?_⟩
  · rw [Store.get_foldl_set, if_neg hnot]
  · have hmem : kOld ∈ allKeysOf cfg entity id r1 := by
      unfold allKeysOf
      exact List.mem_append_right _ hkOld
    rw [Store.get_foldl_set, if_pos hmem]
  · intro k hk
    rw [Store.get_foldl_set, if_pos hk]
  · intro k hsome
    rw [Store.get_foldl_set]
    by_cases hk : k ∈ allKeysOf cfg entity id r2 <;> simp [hk, hsome]

/-- Witness for C9: saving ALICE and then ALICE2 (same ssn and email, changed
zipcode) leaves the old country/zipcode indexed key in place, still holding the
ALICE snapshot, while all of ALICE2's keys hold ALICE2. -/
theorem saveKeepsStaleIndexedKeys_witness :
    ((save cfgP "person" ALICE2 true storeA).toOption.getD []).get
        ([JsValue.str "testPf", JsValue.str "person", JsValue.str "country",
          JsValue.str "US", JsValue.str "zipcode", JsValue.str "12345",
          JsValue.str "123-45-6789"]) =
      storeA.get
        ([JsValue.str "testPf", JsValue.str "person", JsValue.str "country",
          JsValue.str "US", JsValue.str "zipcode", JsValue.str "12345",
          JsValue.str "123-45-6789"]) ∧
    storeA.get
        ([JsValue.str "testPf", JsValue.str "person", JsValue.str "country",
          JsValue.str "US", JsValue.str "zipcode", JsValue.str "12345",
          JsValue.str "123-45-6789"]) = some ALICE ∧
    (∀ k ∈ allKeysOf cfgP personDef "person" ALICE2,
      ((save cfgP "person" ALICE2 true storeA).toOption.getD []).get k = some ALICE2) ∧
    (∀ k, (storeA.get k).isSome →
      (((save cfgP "person" ALICE2 true storeA).toOption.getD []).get k).isSome) :=
  saveKeepsStaleIndexedKeys cfgP personDef "person" ALICE ALICE2 [] storeA
    ((save cfgP "person" ALICE2 true storeA).toOption.getD [])
    ([JsValue.str "testPf", JsValue.str "person", JsValue.str "country",
      JsValue.str "US", JsValue.str "zipcode", JsValue.str "12345",
      JsValue.str "123-45-6789"])
    (by decide) (by decide) (by decide) (by decide) (by decide)

/-- Claim C10: key composition performs no field-presence validation. For a
registered type, `getUniqueKeys` / `getNonUniqueKeys` succeed on any instance;
when the instance lacks a declared unique field, the corresponding staged
unique key contains an `undefined` component, when it lacks a declared
indexed-chain field, the corresponding staged indexed key contains an
`undefined` component, and `undefined` is not a valid key part
(`isKvKeyPart` rejects it). -/
theorem noFieldPresenceValidation (cfg : DbConfig) (entity : EntityDefinition)
    (id : String) (inst : Instance)
    (hdef : cfg.lookupDef id = some entity) :
    (getUniqueKeys cfg id inst = .ok (uniqueKeysOf cfg entity id inst) ∧
      ∀ uf ∈ entity.uniqueProperties, inst.get uf = .undefined →
        ∃ k ∈ uniqueKeysOf cfg entity id inst, JsValue.undefined ∈ k) ∧
    (getNonUniqueKeys cfg id inst = .ok (nonUniqueKeysOf cfg entity id inst) ∧
      ∀ ch ∈ entity.indexedPropertyChains, ∀ f ∈ ch, inst.get f = .undefined →
        ∃ k ∈ nonUniqueKeysOf cfg entity id inst, JsValue.undefined ∈ k) ∧
    isKvKeyPart JsValue.undefined = false := by
  refine ⟨⟨getUniqueKeys_of_lookup cfg entity id inst hdef, ?_⟩,
    ⟨getNonUniqueKeys_of_lookup cfg entity id inst hdef, ?_⟩, rfl⟩
  · intro uf huf hundef
    refine ⟨getUniqueKey cfg id uf (inst.get uf),
      List.mem_map.mpr ⟨uf, huf, rfl⟩, ?_⟩
    simp [getUniqueKey, hundef]
  · intro ch hch f hf hundef
    refine ⟨getNonUniqueKey cfg (some id)
      (some (.pairs (ch.map (fun p => (p, inst.get p)))))
      (primaryUniqueValue entity inst),
      List.mem_map.mpr ⟨ch, hch, rfl⟩, ?_⟩
    unfold getNonUniqueKey
    refine List.mem_append_left _ (List.mem_append_right _ ?_)
    simp only [PropertyLookup.flat, List.mem_flatMap, List.mem_map]
    exact ⟨(f, inst.get f), ⟨f, hf, rfl⟩, by simp [hundef]⟩

/-- Witness for C10: the partial ALICE instance lacks the declared unique
field `ssn` and the declared chain field `zipcode`; both key families stage
keys containing `undefined`, with no error raised. -/
theorem noFieldPresenceValidation_witness :
    (getUniqueKeys cfgP "person" ALICEPARTIAL =
        .ok (uniqueKeysOf cfgP personDef "person" ALICEPARTIAL) ∧
      ∀ uf ∈ personDef.uniqueProperties, ALICEPARTIAL.get uf = .undefined →
        ∃ k ∈ uniqueKeysOf cfgP personDef "person" ALICEPARTIAL,
          JsValue.undefined ∈ k) ∧
    (getNonUniqueKeys cfgP "person" ALICEPARTIAL =
        .ok (nonUniqueKeysOf cfgP personDef "person" ALICEPARTIAL) ∧
      ∀ ch ∈ personDef.indexedPropertyChains, ∀ f ∈ ch,
        ALICEPARTIAL.get f = .undefined →
          ∃ k ∈ nonUniqueKeysOf cfgP personDef "person" ALICEPARTIAL,
            JsValue.undefined ∈ k) ∧
    isKvKeyPart JsValue.undefined = false :=
  noFieldPresenceValidation cfgP personDef "person" ALICEPARTIAL (by decide)

/-- Claim C3: after `save(typeId, instance)` commits — over a well-formed store
that does not hold the instance anywhere outside its own derived keys — the
store holds the instance under exactly
`|uniqueFields| + |indexedFieldChains|` physical keys, and a key holds the
identical full instance exactly when it is one of the derived keys (no partial
encoding at any key). -/
theorem saveKeyCount (cfg : DbConfig) (entity : EntityDefinition)
    (id : String) (inst : Instance) (st st' : Store)
    (hdef : cfg.lookupDef id = some entity)
    (hu : entity.uniqueProperties.Nodup)
    (hc : entity.indexedPropertyChains.Nodup)
    (hprim : primaryUniqueValue entity inst ≠ .undefined)
    (hwf : st.WF)
    (honly : ∀ e ∈ st, e.2 = inst → e.1 ∈ allKeysOf cfg entity id inst)
    (hsave : save cfg id inst true st = .ok st') :
    (st'.keysHolding inst).length =
        entity.uniqueProperties.length + entity.indexedPropertyChains.length ∧
    (∀ k, st'.get k = some inst ↔ k ∈ allKeysOf cfg entity id inst) := by
  unfold save at hsave
  rw [getAllKeys_of_lookup cfg entity id inst hdef] at hsave
  simp only [commitSets, if_pos] at hsave
  obtain rfl : (allKeysOf cfg entity id inst).foldl
      (fun s k => s.set k inst) st = st' := by simpa using hsave
  have hwf' := Store.WF_foldl_set inst (allKeysOf cfg entity id inst) st hwf
  have hmem : ∀ k,
      ((allKeysOf cfg entity id inst).foldl (fun s k => s.set k inst) st).get k
        = some inst ↔ k ∈ allKeysOf cfg entity id inst := by
    intro k
    rw [Store.get_foldl_set]
    by_cases hk : k ∈ allKeysOf cfg entity id inst
    · simp [hk]
    · rw [if_neg hk]
      constructor
      · intro hg
        exact absurd (honly _ (Store.mem_of_get_eq_some st k inst hg) rfl) hk
      · intro h
        exact absurd h hk
  refine ⟨?_, hmem⟩
  have h1 : ∀ k,
      k ∈ ((allKeysOf cfg entity id inst).foldl
        (fun s k => s.set k inst) st).keysHolding inst ↔
      k ∈ allKeysOf cfg entity id inst := by
    intro k
    rw [Store.mem_keysHolding, ← Store.get_eq_some_iff _ hwf', hmem]
  have hperm := (List.perm_ext_iff_of_nodup
    (Store.keysHolding_nodup _ inst hwf')
    (allKeysOf_nodup cfg entity id inst hu hc hprim)).mpr h1
  rw [hperm.length_eq, allKeysOf_length]

/-- Witness for C3: saving ALICE into the empty store leaves her stored under
exactly 2 + 2 = 4 physical keys, precisely her derived keys. -/
theorem saveKeyCount_witness :
    (storeA.keysHolding ALICE).length =
        personDef.uniqueProperties.length + personDef.indexedPropertyChains.length ∧
    (∀ k, storeA.get k = some ALICE ↔ k ∈ allKeysOf cfgP personDef "person" ALICE) :=
  saveKeyCount cfgP personDef "person" ALICE [] storeA
    (by decide) (by decide) (by decide) (by decide)
    (by simp [Store.WF]) (by simp) (by decide)

/-- Claim C1 (the delete operations are modelled from the spec, their
implementation being absent from src): `delete(typeId, uniqueFieldName,
uniqueFieldValue)` first performs a unique-key point lookup; if no instance is
found it is a no-op and not an error; if an instance is found it delegates to
`deleteEntityInstance` with the retrieved instance, atomically removing every
physical key (unique and indexed) of that instance, so that afterwards every
previously reachable key returns absent and the instance is excluded from
every `findAll`. -/
theorem deleteCompleteness (cfg : DbConfig) (entity : EntityDefinition)
    (id uf : String) (v : JsValue) (st : Store)
    (hdef : cfg.lookupDef id = some entity) :
    (find cfg id uf v st = none → delete cfg id uf v true st = .ok st) ∧
    (∀ inst st', find cfg id uf v st = some inst →
      (∀ e ∈ st, e.2 = inst → e.1 ∈ allKeysOf cfg entity id inst) →
      delete cfg id uf v true st = .ok st' →
      (∀ k ∈ allKeysOf cfg entity id inst, st'.get k = none) ∧
      (∀ oid oplp vs, findAll cfg oid oplp st' = .ok vs → inst ∉ vs)) := by
  constructor
  · intro hnone
    unfold delete
    rw [hnone]
  · intro inst st' hfound honly hdel
    rw [delete_found cfg id uf v true st inst hfound] at hdel
    unfold deleteEntityInstance at hdel
    rw [getAllKeys_of_lookup cfg entity id inst hdef] at hdel
    simp only [commitDeletes, if_pos] at hdel
    obtain rfl : (allKeysOf cfg entity id inst).foldl Store.del st = st' := by
      simpa using hdel
    constructor
    · intro k hk
      rw [Store.get_foldl_del, if_pos hk]
    · intro oid oplp vs hfa hin
      unfold findAll at hfa
      obtain rfl : Store.listValues _ _ = vs := by simpa using hfa
      unfold Store.listValues at hin
      obtain ⟨e, hef, he2⟩ := List.mem_map.mp hin
      have hest := (List.mem_filter.mp hef).1
      obtain ⟨hest', hnot⟩ := (Store.mem_foldl_del e _ st).mp hest
      exact hnot (honly e hest' he2)

/-- Witness for C1: deleting ALICE through her unique ssn from the store that
holds her makes every derived key absent and excludes her from every findAll;
the theorem is applied at that concrete store. -/
theorem deleteCompleteness_witness :
    (find cfgP "person" "ssn" (JsValue.str "123-45-6789") storeA = none →
      delete cfgP "person" "ssn" (JsValue.str "123-45-6789") true storeA =
        .ok storeA) ∧
    (∀ inst st',
      find cfgP "person" "ssn" (JsValue.str "123-45-6789") storeA = some inst →
      (∀ e ∈ storeA, e.2 = inst → e.1 ∈ allKeysOf cfgP personDef "person" inst) →
      delete cfgP "person" "ssn" (JsValue.str "123-45-6789") true storeA = .ok st' →
      (∀ k ∈ allKeysOf cfgP personDef "person" inst, st'.get k = none) ∧
      (∀ oid oplp vs, findAll cfgP oid oplp st' = .ok vs → inst ∉ vs)) :=
  deleteCompleteness cfgP personDef "person" "ssn" (JsValue.str "123-45-6789")
    storeA (by decide)

end KvEntity
